import Mathlib

/-!
Verification of the request/response translation engine of the
go-gemini-proxy-openai repository: a shallow embedding, in Lean 4, of the
message merger, role tables, turn-order fixup, parameter mapper, response
assembler, streaming producer and credential-scoped client cache, with
theorems settling the specification's claims about them.

Sources embedded: `src/openai.go` and `src/unnamed/part_000` (Go package
`goai`), `src/main.go` and `src/unnamed/part_001` (Go package `main`),
`src/cmd/server/main.go` (the HTTP layer, out of scope).  Go slices become
`List`, maps become total functions or `Option`-valued lookups, and the three
ways a Go function can stop (return a value, return an error, abort via
`panic`/`log.Fatalf`) become the three constructors of `Res`.
-/

namespace GeminiProxy

/-- Outcome of a Go computation: a value, a returned `error`, or an abort
(`panic` or `log.Fatalf`, which kills the process instead of returning). -/
inductive Res (α : Type) where
  | ok (a : α)
  | err (msg : String)
  | abort (msg : String)
deriving DecidableEq, Repr

/-- Go error/abort propagation: `.ok` feeds the continuation, the other two
constructors short-circuit (an early `return nil, err`, or process death). -/
def Res.bind {α β : Type} : Res α → (α → Res β) → Res β
  | .ok a, f => f a
  | .err m, _ => .err m
  | .abort m, _ => .abort m

/-- The successful value, if any: collapses `err` and `abort` to `none`. -/
def Res.toOption {α : Type} : Res α → Option α
  | .ok a => some a
  | .err _ => none
  | .abort _ => none

/-- openai.ChatMessagePart: one fragment of multi-part content.  `type` is
`"text"` or `"image_url"`; `imageURL` holds the data-URI for image parts. -/
structure ChatMessagePart where
  type : String
  text : String
  imageURL : String
deriving DecidableEq, Repr

/-- openai.ChatCompletionMessage: a wire-format message. -/
structure ChatCompletionMessage where
  role : String
  content : String
  multiContent : List ChatMessagePart
deriving DecidableEq, Repr

/-- genai.Part: a provider content unit.  `blob` keeps the image payload as
its decoded-from-data-URI textual payload (byte-level base64 decoding is
abstracted; no claim depends on the bytes). -/
inductive GPart where
  | text (s : String)
  | blob (mime : String) (data : String)
deriving DecidableEq, Repr

/-- genai.Content: a provider turn (party + content units). -/
structure Content where
  role : String
  parts : List GPart
deriving DecidableEq, Repr

/-- genai.Candidate: one provider completion.  `finishReason` is the
genai.FinishReason enum value (Unspecified=0, Stop=1, MaxTokens=2, Safety=3,
Recitation=4, Other=5; anything else is outside the library's table). -/
structure Candidate where
  index : Int
  content : Content
  finishReason : Int
  tokenCount : Int
deriving DecidableEq, Repr

/-- Gemini role constants (`genaiRoleUser` in openai.go, `roleUser` in
main.go). -/
def genaiRoleUser : String := "user"

/-- Gemini model-party constant. -/
def genaiRoleModel : String := "model"

/-- The synthetic priming text prepended by the turn-order fixup
(`systemPrompt` in both packages). -/
def systemPrompt : String := "I will ask you a question. Please answer it."

/-- main.go `geminiRolesByOpenAIRoles` (identical to openai.go `toGenaiRole`):
wire role to provider party.  A Go map lookup with the `ok` flag, hence
`Option`. -/
def geminiRolesByOpenAIRoles (role : String) : Option String :=
  if role = "system" then some genaiRoleUser
  else if role = "assistant" then some genaiRoleModel
  else if role = "user" then some genaiRoleUser
  else none

/-- openai.go `toGenaiRole`: the same table under the goai package's name. -/
def toGenaiRole (role : String) : Option String :=
  geminiRolesByOpenAIRoles role

/-- openai.go `toOpenaiRole`: provider party back to wire role.  The Go code
indexes the map without the `ok` flag, so a missing key yields the string
zero value `""`. -/
def toOpenaiRole (role : String) : String :=
  if role = genaiRoleUser then "system"
  else if role = genaiRoleModel then "assistant"
  else ""

/-- main.go `finishReasons` (identical to openai.go `toOpenaiFinishReason`):
genai finish reason to openai finish reason.  Indexed without the `ok` flag
in both packages, so a value outside the table yields `""`. -/
def finishReasons (fr : Int) : String :=
  if fr = 0 then "null"
  else if fr = 1 then "stop"
  else if fr = 2 then "length"
  else if fr = 3 then "content_filter"
  else if fr = 4 then "content_filter"
  else if fr = 5 then "null"
  else ""

/-- openai.go `toOpenaiFinishReason`: the same table under the goai package's
name. -/
def toOpenaiFinishReason (fr : Int) : String :=
  finishReasons fr

/-- A single text part as both mergers build it:
`openai.ChatMessagePart{Type: openai.ChatMessagePartTypeText, Text: s}`. -/
def textPart (s : String) : ChatMessagePart :=
  { type := "text", text := s, imageURL := "" }

/-- The merge switch shared verbatim by openai.go `mergeOpenaiMessages` and
main.go `mergeOpenAIMessages`: merge `curr` into the last output message
`prev` when both map to the same party.  The four cases are on whether each
side has non-empty multi-part content. -/
def mergeStep (prev curr : ChatCompletionMessage) : ChatCompletionMessage :=
  match prev.multiContent.isEmpty, curr.multiContent.isEmpty with
  | false, false =>
      { prev with multiContent := prev.multiContent ++ curr.multiContent }
  | false, true =>
      { prev with multiContent := prev.multiContent ++ [textPart curr.content] }
  | true, false =>
      { prev with multiContent := textPart prev.content :: curr.multiContent,
                  content := "" }
  | true, true =>
      { prev with content := prev.content ++ "\n" ++ curr.content }

/-- The loop body shared by both mergers: `prevRole` is the mapped party of
the last appended message, `res` the output built so far (`res` is updated at
its last index exactly as the Go code updates `res[len(res)-1]`).  `none`
models the failure paths: an unmappable role (each wrapper below turns that
into its own failure mode), or indexing `res[len(res)-1]` on an empty `res`
(unreachable from the top-level call, where `prevRole` starts as `""`). -/
def mergeOpenAIMessagesAux :
    String → List ChatCompletionMessage → List ChatCompletionMessage →
    Option (List ChatCompletionMessage)
  | _, res, [] => some res
  | prevRole, res, curr :: msgs =>
    match geminiRolesByOpenAIRoles curr.role with
    | none => none
    | some role =>
      if role = prevRole then
        match res.getLast? with
        | none => none
        | some prev =>
            mergeOpenAIMessagesAux prevRole
              (res.dropLast ++ [mergeStep prev curr]) msgs
      else
        mergeOpenAIMessagesAux role (res ++ [curr]) msgs

/-- main.go `mergeOpenAIMessages`: the merger that reports an unmappable wire
role as a returned error (`ErrInvalidParams`). -/
def mergeOpenAIMessages (msgs : List ChatCompletionMessage) :
    Res (List ChatCompletionMessage) :=
  match mergeOpenAIMessagesAux "" [] msgs with
  | some res => .ok res
  | none => .err "invalid parameters: failed to map openai role to gemini role"

/-- openai.go `mergeOpenaiMessages`: the identical merger, except an
unmappable wire role aborts the process (`log.Fatalf`). -/
def mergeOpenaiMessages (msgs : List ChatCompletionMessage) :
    Res (List ChatCompletionMessage) :=
  match mergeOpenAIMessagesAux "" [] msgs with
  | some res => .ok res
  | none => .abort "unknown openai role"

/-- Modelled from the claim's merge rule (C1), for refinement only — written
from the specification's words, not from the source: fold the message list,
merging each message whose mapped party equals the mapped party of the
message accumulated so far.  `mergeStepSpec` below is the claim's per-pair
rule. -/
def mergeStepSpec (prev curr : ChatCompletionMessage) : ChatCompletionMessage :=
  if prev.multiContent ≠ [] ∧ curr.multiContent ≠ [] then
    -- both sides have non-empty multi-part content: concatenate the part
    -- lists in order (the plain text rides along unchanged)
    { prev with multiContent := prev.multiContent ++ curr.multiContent }
  else if prev.multiContent ≠ [] then
    -- only the previous side is multi-part: the current side's plain text
    -- becomes a single text part, lists concatenated
    { prev with multiContent := prev.multiContent ++ [textPart curr.content] }
  else if curr.multiContent ≠ [] then
    -- only the current side is multi-part: the previous side's plain text is
    -- converted into a single text part (leaving its text field empty)
    { prev with multiContent := textPart prev.content :: curr.multiContent,
                content := "" }
  else
    -- neither is multi-part: join the two texts with a newline
    { prev with content := prev.content ++ "\n" ++ curr.content }

/-- Modelled from the claim's merge rule (C1): process the remaining
messages, `last` being the in-progress merged message of the current
same-party run. -/
def mergeRuleGo (last : ChatCompletionMessage) :
    List ChatCompletionMessage → Option (List ChatCompletionMessage)
  | [] => some [last]
  | m :: rest =>
    match geminiRolesByOpenAIRoles m.role, geminiRolesByOpenAIRoles last.role with
    | some r, some rl =>
        if r = rl then mergeRuleGo (mergeStepSpec last m) rest
        else (mergeRuleGo m rest).map (last :: ·)
    | _, _ => none

/-- Modelled from the claim's merge rule (C1): the full fold. -/
def mergeSpec : List ChatCompletionMessage → Option (List ChatCompletionMessage)
  | [] => some []
  | m :: rest =>
    if (geminiRolesByOpenAIRoles m.role).isSome then mergeRuleGo m rest
    else none

/-- Two adjacent messages are acceptable to the provider when their wire
roles map to different parties. -/
def partyNe (a b : ChatCompletionMessage) : Prop :=
  geminiRolesByOpenAIRoles a.role ≠ geminiRolesByOpenAIRoles b.role

instance (a b : ChatCompletionMessage) : Decidable (partyNe a b) :=
  inferInstanceAs
    (Decidable (geminiRolesByOpenAIRoles a.role ≠ geminiRolesByOpenAIRoles b.role))

/-- The text strings of a part list, provided every part is text (`none` as
soon as one is not): the common core of the two `mergeText` accumulation
loops. -/
def collectTexts : List GPart → Option (List String)
  | [] => some []
  | .text t :: rest => (collectTexts rest).map (t :: ·)
  | .blob _ _ :: _ => none

namespace goai

/-- part_000 `mergeText` (package goai): concatenate the text of every part,
panicking on a non-text part; an empty part list joins to `""`. -/
def mergeText (parts : List GPart) : Res String :=
  match collectTexts parts with
  | some texts => .ok (String.join texts)
  | none => .abort "part is not text"

end goai

/-- main.go `mergeText` (package main): same concatenation, but the loop
starts with `in[0]`, so an empty part list is an index-out-of-range panic. -/
def mergeText (parts : List GPart) : Res String :=
  match parts with
  | [] => .abort "index out of range"
  | _ =>
    match collectTexts parts with
    | some texts => .ok (String.join texts)
    | none => .abort "part is not text"

/-- Run a `Res`-valued conversion over a list, short-circuiting on the first
failure: the shape of every conversion loop in the source. -/
def mapRes {α β : Type} (f : α → Res β) : List α → Res (List β)
  | [] => .ok []
  | a :: rest =>
    match f a with
    | .ok b =>
      match mapRes f rest with
      | .ok bs => .ok (b :: bs)
      | .err m => .err m
      | .abort m => .abort m
    | .err m => .err m
    | .abort m => .abort m

/-- openai.go / main.go `decodeBase64Image`: split a `data:<mime>;base64,<p>`
literal at the first `";"` (strings.Cut), returning the MIME type and the
payload.  A literal without `";"` is the "invalid image format" error.  The
byte-level base64 decoding of the payload is abstracted (the payload string
stands for the blob; no claim depends on the bytes). -/
def decodeBase64Image (b64 : String) : Res (String × String) :=
  match b64.splitOn ";" with
  | [] => .err "invalid image format"
  | [_] => .err "invalid image format"
  | lhs :: rest =>
    let rhs := String.intercalate ";" rest
    let mimeType := lhs.replace "data:" ""
    let payload := rhs.replace "base64," ""
    .ok (mimeType, payload)

/-- part_000 `toGenaiImageData`: decode the data URI, aborting on a decode
error (`log.Fatalf`), and strip the `image/` prefix from the MIME type. -/
def toGenaiImageData (b64img : String) : Res GPart :=
  match decodeBase64Image b64img with
  | .ok (mimeType, blob) =>
    let format := if mimeType.startsWith "image/" then mimeType.drop 6 else mimeType
    .ok (.blob format blob)
  | .err _ => .abort "failed to decode base64 image"
  | .abort m => .abort m

/-- part_000 `toGenaiPart`: a text part maps to `genai.Text`, an image part
to decoded image data; any other type is `panic("unhandled type")`. -/
def toGenaiPart (mp : ChatMessagePart) : Res GPart :=
  if mp.type = "text" then .ok (.text mp.text)
  else if mp.type = "image_url" then toGenaiImageData mp.imageURL
  else .abort "unhandled type"

/-- part_000 `toGenaiContent`: the role is looked up without the `ok` flag
(a missing key gives the zero value `""`); plain text becomes one text part,
multi-part content is converted part by part. -/
def toGenaiContent (msg : ChatCompletionMessage) : Res Content :=
  let r := (toGenaiRole msg.role).getD ""
  if msg.multiContent.isEmpty then
    .ok { role := r, parts := [.text msg.content] }
  else
    match mapRes toGenaiPart msg.multiContent with
    | .ok parts => .ok { role := r, parts := parts }
    | .err m => .err m
    | .abort m => .abort m

/-- part_000 `toGenaiContents`. -/
def toGenaiContents (msgs : List ChatCompletionMessage) : Res (List Content) :=
  mapRes toGenaiContent msgs

/-- part_000 `reorderContentByRole` (identical to main.go
`fixContentRoleOrder`): panics when the last turn is not user-party (indexing
`contents[len(contents)-1]` on an empty list is itself a panic); returns the
list unchanged when the first turn is user-party; otherwise prepends one
synthetic user turn carrying the fixed priming text. -/
def reorderContentByRole (contents : List Content) : Res (List Content) :=
  match contents.getLast? with
  | none => .abort "index out of range"
  | some last =>
    if last.role ≠ genaiRoleUser then .abort "last message must be from user"
    else
      match contents.head? with
      | none => .abort "index out of range"
      | some first =>
        if first.role = genaiRoleUser then .ok contents
        else .ok ({ role := genaiRoleUser,
                    parts := [.text systemPrompt] } :: contents)

/-- main.go `fixContentRoleOrder`: the same function under the main package's
name. -/
def fixContentRoleOrder (contents : List Content) : Res (List Content) :=
  reorderContentByRole contents

/-- part_000 `buildContent`: merge, convert, fix the turn order. -/
def buildContent (msgs : List ChatCompletionMessage) : Res (List Content) :=
  (mergeOpenaiMessages msgs).bind fun merged =>
    (toGenaiContents merged).bind fun contents =>
      reorderContentByRole contents

/-- openai.go `pop`: split off the last element, panicking on an empty
slice. -/
def pop {α : Type} (vs : List α) : Res (List α × α) :=
  match vs.getLast? with
  | none => .abort "pop from empty slice"
  | some last => .ok (vs.dropLast, last)

/-- The message-translation part of openai.go `Adapter.ChatCompletion` (and
`Adapter.ChatCompletionStream`): build the provider turns from the request's
messages, then split history and tail with `pop`.  Model/client creation in
between is external I/O with no effect on the translation and is omitted. -/
def chatCompletionPrep (msgs : List ChatCompletionMessage) :
    Res (List Content × Content) :=
  (buildContent msgs).bind fun contents => pop contents

/-- main.go / part_001 `IF`: Go's generic conditional helper. -/
def IF {α : Type} (ok : Bool) (a b : α) : α :=
  if ok then a else b

/-- openai.ChatCompletionChoice (the fields the assembler fills). -/
structure ChatCompletionChoice where
  index : Int
  role : String
  content : String
  finishReason : String
deriving DecidableEq, Repr

/-- openai.ChatCompletionResponse (the fields the assembler fills):
the choices and the accumulated completion-token usage. -/
structure ChatCompletionResponse where
  choices : List ChatCompletionChoice
  completionTokens : Int
deriving DecidableEq, Repr

/-- The body of the main.go `genaiToOpenaiResponse` loop for one candidate:
party mapped with `IF (role == model) assistant user`, text from `mergeText`
(which can panic), then the finish-reason lookup, whose miss value `""` is
turned into an explicit `ErrInvalidParams` error. -/
def genaiToOpenaiChoice (c : Candidate) : Res ChatCompletionChoice :=
  let role := IF (c.content.role == genaiRoleModel) "assistant" "user"
  let idx := c.index
  match mergeText c.content.parts with
  | .ok content =>
    let finishReason := finishReasons c.finishReason
    if finishReason = "" then
      .err "invalid parameters: failed to map gemini finish reason to openai finish reason"
    else
      .ok { index := idx, role := role, content := content,
            finishReason := finishReason }
  | .err m => .err m
  | .abort m => .abort m

/-- The main.go `genaiToOpenaiResponse` loop over all candidates, summing the
reported token counts in order. -/
def genaiToOpenaiChoices :
    List Candidate → Res (List ChatCompletionChoice × Int)
  | [] => .ok ([], 0)
  | c :: rest =>
    match genaiToOpenaiChoice c with
    | .ok choice =>
      match genaiToOpenaiChoices rest with
      | .ok (choices, tokens) => .ok (choice :: choices, c.tokenCount + tokens)
      | .err m => .err m
      | .abort m => .abort m
    | .err m => .err m
    | .abort m => .abort m

/-- main.go `genaiToOpenaiResponse` (identical to part_001
`gemini.toGeminiResponse`): assemble the wire response from the provider
candidates. -/
def genaiToOpenaiResponse (cands : List Candidate) : Res ChatCompletionResponse :=
  match genaiToOpenaiChoices cands with
  | .ok (choices, tokens) => .ok { choices := choices, completionTokens := tokens }
  | .err m => .err m
  | .abort m => .abort m

/-- openai.go `toOpenaiChoice`: the goai package's per-candidate assembler.
Unlike main.go's, it checks nothing: the role and finish-reason lookups keep
their zero-value misses (`""`). -/
def toOpenaiChoice (c : Candidate) : Res ChatCompletionChoice :=
  let role := toOpenaiRole c.content.role
  let idx := c.index
  match goai.mergeText c.content.parts with
  | .ok content =>
    .ok { index := idx, role := role, content := content,
          finishReason := toOpenaiFinishReason c.finishReason }
  | .err m => .err m
  | .abort m => .abort m

/-- openai.ChatCompletionStreamChoice: one streamed delta. -/
structure ChatCompletionStreamChoice where
  index : Int
  deltaRole : String
  deltaContent : String
  finishReason : String
deriving DecidableEq, Repr

/-- openai.go `toOpenaiStreamChoice`: per-increment version of the goai
assembler (same unchecked lookups, goai `mergeText` for the delta text). -/
def toOpenaiStreamChoice (c : Candidate) : Res ChatCompletionStreamChoice :=
  let idx := c.index
  match goai.mergeText c.content.parts with
  | .ok content =>
    .ok { index := idx, deltaRole := toOpenaiRole c.content.role,
          deltaContent := content,
          finishReason := toOpenaiFinishReason c.finishReason }
  | .err m => .err m
  | .abort m => .abort m

/-- openai.go `toOpenaiStreamChoices`. -/
def toOpenaiStreamChoices (cands : List Candidate) :
    Res (List ChatCompletionStreamChoice) :=
  mapRes toOpenaiStreamChoice cands

/-- How the provider's streaming iterator ends after its increments: normal
exhaustion (`iterator.Done`) or an error. -/
inductive IterTerminal where
  | done
  | failure (msg : String)
deriving DecidableEq, Repr

/-- What the streaming goroutine of openai.go `Adapter.ChatCompletionStream`
did to its output channel: the chunks sent, in send order (each one chunk per
provider increment; the uuid id, timestamp and echoed model name carried
alongside are external and omitted), whether the channel was closed, and
whether the goroutine died in a panic. -/
structure StreamTrace where
  chunks : List (List ChatCompletionStreamChoice)
  closed : Bool
  panicked : Bool
deriving DecidableEq, Repr

/-- The producer goroutine of openai.go `Adapter.ChatCompletionStream`: pull
`iter.Next()` in a loop; on `iterator.Done` close the channel and stop; on
any other error the code takes the same path as a successful increment and
dereferences the nil response (`res.Candidates`), so the goroutine panics
with the channel never closed.  A panic while building a chunk (non-text
part) likewise leaves the channel open. -/
def chatCompletionStreamProducer :
    List (List Candidate) → IterTerminal → StreamTrace
  | [], .done => { chunks := [], closed := true, panicked := false }
  | [], .failure _ => { chunks := [], closed := false, panicked := true }
  | cands :: rest, t =>
    match toOpenaiStreamChoices cands with
    | .ok cs =>
      let tr := chatCompletionStreamProducer rest t
      { chunks := cs :: tr.chunks, closed := tr.closed, panicked := tr.panicked }
    | .err _ => { chunks := [], closed := false, panicked := true }
    | .abort _ => { chunks := [], closed := false, panicked := true }

/-- openai.ChatCompletionRequest (the fields the adapter reads).  The two
sampling floats are modelled as rationals: the source only compares them with
zero and passes them through, so no floating-point arithmetic occurs. -/
structure ChatCompletionRequest where
  model : String
  messages : List ChatCompletionMessage
  maxTokens : Int
  temperature : Rat
  topP : Rat
  n : Int
  stop : List String
  stream : Bool
deriving DecidableEq, Repr

/-- Go's `int32(x)` conversion: two's-complement truncation to 32 bits. -/
def int32cast (x : Int) : Int :=
  (x + 2 ^ 31) % 2 ^ 32 - 2 ^ 31

/-- The generation configuration of a genai.GenerativeModel as
`loadOrStoreModel` leaves it: `none` is an unset (nil) field, so the provider
default applies. -/
structure GenerationConfig where
  modelName : String
  candidateCount : Option Int
  maxOutputTokens : Option Int
  temperature : Option Rat
  topP : Option Rat
  stopSequences : List String
deriving DecidableEq, Repr

/-- The parameter-mapping effect of main.go `gemini.loadOrStoreModel`
(identical to openai.go `Adapter.loadOrStoreModel`): pick the model by
modality, set candidate count 1, max output tokens (through `int32`), stop
sequences, temperature and topP, then nil out topP and maxOutputTokens when
they are 0.  Client creation and logging are external and omitted. -/
def loadOrStoreModel (req : ChatCompletionRequest) (isMultiModal : Bool) :
    GenerationConfig :=
  let candidateCount : Int := 1
  let maxOutputTokens := int32cast req.maxTokens
  let base : GenerationConfig :=
    { modelName := if isMultiModal then "gemini-pro-vision" else "gemini-pro"
      candidateCount := some candidateCount
      maxOutputTokens := some maxOutputTokens
      temperature := some req.temperature
      topP := some req.topP
      stopSequences := req.stop }
  let withTopP := if req.topP = 0 then { base with topP := none } else base
  if maxOutputTokens = 0 then { withTopP with maxOutputTokens := none }
  else withTopP

/-- The shared state of the credential-scoped client cache for one
credential, with `n` concurrent callers of `createClient`: the `sync.Map`
slot for the credential (`none` = no client installed; a client is named by
the index of the caller that constructed it, so distinct constructions are
distinguishable), each caller's position in the `Load` /
construct-and-`LoadOrStore` protocol, and each caller's returned handle. -/
structure CacheState (n : Nat) where
  cache : Option (Fin n)
  phase : Fin n → Nat
  result : Fin n → Option (Fin n)

/-- The empty cache with every caller about to issue its `Load`. -/
def initCacheState (n : Nat) : CacheState n :=
  { cache := none, phase := fun _ => 0, result := fun _ => none }

/-- One atomic shared-memory step of caller `i` in openai.go
`Adapter.createClient` (identical to main.go `gemini.createClient`):
phase 0 is the `clients.Load` (a hit returns the cached client, a miss moves
to construction); phase 1 is the `clients.LoadOrStore` after constructing
client `i` (construction touches no shared state, so it is folded into this
step; `loaded = true` discards the fresh client and returns the winner);
phase 2 is finished. -/
def cacheStep {n : Nat} (s : CacheState n) (i : Fin n) : CacheState n :=
  if s.phase i = 0 then
    match s.cache with
    | some c =>
        { s with phase := Function.update s.phase i 2,
                 result := Function.update s.result i (some c) }
    | none => { s with phase := Function.update s.phase i 1 }
  else if s.phase i = 1 then
    match s.cache with
    | some c =>
        { s with phase := Function.update s.phase i 2,
                 result := Function.update s.result i (some c) }
    | none =>
        { s with cache := some i,
                 phase := Function.update s.phase i 2,
                 result := Function.update s.result i (some i) }
  else s

/-- Run the cache protocol under an arbitrary interleaving: the schedule
lists which caller takes the next atomic step. -/
def cacheRun {n : Nat} (s : CacheState n) : List (Fin n) → CacheState n
  | [] => s
  | i :: sched => cacheRun (cacheStep s i) sched

/-- Invariant of the cache protocol: every returned handle equals the cached
client, and a finished caller holds a handle. -/
def CacheInv {n : Nat} (s : CacheState n) : Prop :=
  (∀ i v, s.result i = some v → s.cache = some v) ∧
  (∀ i, s.phase i = 2 → (s.result i).isSome)



theorem mergeStep_role (prev curr : ChatCompletionMessage) :
    (mergeStep prev curr).role = prev.role := by
  unfold mergeStep; split <;> rfl

theorem mergeStepSpec_eq (prev curr : ChatCompletionMessage) :
    mergeStepSpec prev curr = mergeStep prev curr := by
  unfold mergeStepSpec mergeStep
  rcases prev with ⟨pr, pc, pmc⟩
  rcases curr with ⟨cr, cc, cmc⟩
  rcases pmc with _ | ⟨p, ps⟩ <;> rcases cmc with _ | ⟨c, cs⟩ <;> simp

theorem mapped_role_ne_empty {s r : String}
    (h : geminiRolesByOpenAIRoles s = some r) : r ≠ "" := by
  unfold geminiRolesByOpenAIRoles genaiRoleUser genaiRoleModel at h
  split_ifs at h <;> (injection h with h; subst h; decide)

theorem mergeAux_eq_rule (msgs : List ChatCompletionMessage) :
    ∀ (acc : List ChatCompletionMessage) (last : ChatCompletionMessage)
      (prevRole : String),
      geminiRolesByOpenAIRoles last.role = some prevRole →
      mergeOpenAIMessagesAux prevRole (acc ++ [last]) msgs =
        (mergeRuleGo last msgs).map (acc ++ ·) := by
  induction msgs with
  | nil =>
    intro acc last prevRole _
    simp [mergeOpenAIMessagesAux, mergeRuleGo]
  | cons curr rest ih =>
    intro acc last prevRole hlast
    cases hc : geminiRolesByOpenAIRoles curr.role with
    | none => simp [mergeOpenAIMessagesAux, mergeRuleGo, hc, hlast]
    | some r =>
      by_cases hr : r = prevRole
      · subst hr
        simp only [mergeOpenAIMessagesAux, mergeRuleGo, hc, hlast,
          List.getLast?_concat, List.dropLast_concat, eq_self_iff_true, if_true]
        rw [mergeStepSpec_eq]
        exact ih acc (mergeStep last curr) r
          (by rw [mergeStep_role]; exact hlast)
      · simp only [mergeOpenAIMessagesAux, mergeRuleGo, hc, hlast, if_neg hr]
        rw [ih (acc ++ [last]) curr r hc]
        cases mergeRuleGo curr rest <;> simp

theorem mergeAux_eq_spec (msgs : List ChatCompletionMessage) :
    mergeOpenAIMessagesAux "" [] msgs = mergeSpec msgs := by
  cases msgs with
  | nil => rfl
  | cons m rest =>
    cases hm : geminiRolesByOpenAIRoles m.role with
    | none => simp [mergeOpenAIMessagesAux, mergeSpec, hm]
    | some r =>
      have hne : r ≠ "" := mapped_role_ne_empty hm
      simp only [mergeOpenAIMessagesAux, mergeSpec, hm, if_neg hne,
        Option.isSome_some, if_true]
      rw [mergeAux_eq_rule rest [] m r hm]
      cases mergeRuleGo m rest <;> simp


theorem Res.ok_of_toOption {α : Type} {r : Res α} {a : α}
    (h : r.toOption = some a) : r = .ok a := by
  cases r <;> simp [Res.toOption] at h <;> rw [h]

theorem mergeOpenAIMessages_toOption (msgs : List ChatCompletionMessage) :
    (mergeOpenAIMessages msgs).toOption = mergeSpec msgs := by
  unfold mergeOpenAIMessages
  rw [mergeAux_eq_spec]
  cases mergeSpec msgs <;> simp [Res.toOption]

theorem mergeOpenaiMessages_toOption (msgs : List ChatCompletionMessage) :
    (mergeOpenaiMessages msgs).toOption = mergeSpec msgs := by
  unfold mergeOpenaiMessages
  rw [mergeAux_eq_spec]
  cases mergeSpec msgs <;> simp [Res.toOption]

/-- C1: the Message Merger folds consecutive messages whose mapped provider
party is equal into one message by the claimed rule (both multi-part:
concatenate part lists; exactly one multi-part: convert the other side's text
into a single text part and concatenate; neither: join texts with a newline).
Both source versions refine `mergeSpec`, the fold written from the claim's
words, and the claim's literal example holds for both. -/
theorem c1_merger_follows_merge_rule :
    (∀ msgs, (mergeOpenAIMessages msgs).toOption = mergeSpec msgs) ∧
    (∀ msgs, (mergeOpenaiMessages msgs).toOption = mergeSpec msgs) ∧
    mergeOpenAIMessages
        [⟨"user", "hello", []⟩, ⟨"user", "world", []⟩,
         ⟨"assistant", "hi", []⟩, ⟨"assistant", "there", []⟩] =
      .ok [⟨"user", "hello\nworld", []⟩, ⟨"assistant", "hi\nthere", []⟩] ∧
    mergeOpenaiMessages
        [⟨"user", "hello", []⟩, ⟨"user", "world", []⟩,
         ⟨"assistant", "hi", []⟩, ⟨"assistant", "there", []⟩] =
      .ok [⟨"user", "hello\nworld", []⟩, ⟨"assistant", "hi\nthere", []⟩] :=
  ⟨mergeOpenAIMessages_toOption, mergeOpenaiMessages_toOption, by decide, by decide⟩

theorem mergeRuleGo_chain (msgs : List ChatCompletionMessage) :
    ∀ (last : ChatCompletionMessage) (out : List ChatCompletionMessage),
      mergeRuleGo last msgs = some out →
      ∃ h t, out = h :: t ∧ h.role = last.role ∧ List.Chain' partyNe out := by
  induction msgs with
  | nil =>
    intro last out h
    simp only [mergeRuleGo, Option.some.injEq] at h
    subst h
    exact ⟨last, [], rfl, rfl, List.chain'_singleton _⟩
  | cons m rest ih =>
    intro last out hout
    cases hm : geminiRolesByOpenAIRoles m.role with
    | none => simp [mergeRuleGo, hm] at hout
    | some r =>
      cases hl : geminiRolesByOpenAIRoles last.role with
      | none => simp [mergeRuleGo, hm, hl] at hout
      | some rl =>
        simp only [mergeRuleGo, hm, hl] at hout
        by_cases hrr : r = rl
        · rw [if_pos hrr] at hout
          obtain ⟨h, t, rfl, hrole, hch⟩ := ih (mergeStepSpec last m) out hout
          refine ⟨h, t, rfl, ?_, hch⟩
          rw [hrole, mergeStepSpec_eq, mergeStep_role]
        · rw [if_neg hrr] at hout
          cases hrec : mergeRuleGo m rest with
          | none => rw [hrec] at hout; exact absurd hout (by simp)
          | some out' =>
            rw [hrec] at hout
            simp only [Option.map_some', Option.some.injEq] at hout
            subst hout
            obtain ⟨h', t', rfl, hrole', hch'⟩ := ih m out' hrec
            refine ⟨last, h' :: t', rfl, rfl, ?_⟩
            rw [List.chain'_cons]
            refine ⟨?_, hch'⟩
            unfold partyNe
            rw [hl, hrole', hm]
            intro hcon
            exact hrr (Option.some.inj hcon).symm

theorem mergeSpec_chain (msgs out : List ChatCompletionMessage)
    (h : mergeSpec msgs = some out) : List.Chain' partyNe out := by
  cases msgs with
  | nil => simp [mergeSpec] at h; subst h; simp
  | cons m rest =>
    cases hr : geminiRolesByOpenAIRoles m.role with
    | none => simp [mergeSpec, hr] at h
    | some r =>
      simp only [mergeSpec, hr, Option.isSome_some, if_true] at h
      obtain ⟨_, _, _, _, hch⟩ := mergeRuleGo_chain rest m out h
      exact hch

theorem mergeRuleGo_id (msgs : List ChatCompletionMessage) :
    ∀ (last : ChatCompletionMessage),
      (geminiRolesByOpenAIRoles last.role).isSome →
      (∀ m ∈ msgs, (geminiRolesByOpenAIRoles m.role).isSome) →
      List.Chain' partyNe (last :: msgs) →
      mergeRuleGo last msgs = some (last :: msgs) := by
  induction msgs with
  | nil => intro last _ _ _; rfl
  | cons m rest ih =>
    intro last hlast hall hch
    obtain ⟨rl, hl⟩ := Option.isSome_iff_exists.mp hlast
    obtain ⟨r, hm⟩ := Option.isSome_iff_exists.mp (hall m (by simp))
    simp only [mergeRuleGo, hm, hl]
    have hne : partyNe last m := (List.chain'_cons.mp hch).1
    have hrr : ¬r = rl := by
      intro hcon
      exact hne (by rw [hl, hm, hcon])
    rw [if_neg hrr]
    rw [ih m (by rw [hm]; rfl) (fun x hx => hall x (by simp [hx]))
      (List.chain'_cons.mp hch).2]
    rfl


/-- C4: on every input on which either Message Merger succeeds, the output
contains no two adjacent messages whose roles map to the same provider
party. -/
theorem c4_merged_no_adjacent_same_party (msgs out : List ChatCompletionMessage)
    (h : (mergeOpenAIMessages msgs).toOption = some out ∨
         (mergeOpenaiMessages msgs).toOption = some out) :
    List.Chain' partyNe out := by
  rcases h with h | h
  · exact mergeSpec_chain msgs out (by rw [← mergeOpenAIMessages_toOption]; exact h)
  · exact mergeSpec_chain msgs out (by rw [← mergeOpenaiMessages_toOption]; exact h)

/-- C4 witness: the merged output of the claim's literal example has no
adjacent same-party pair. -/
theorem c4_merged_no_adjacent_same_party_witness :
    List.Chain' partyNe
      [⟨"user", "hello\nworld", []⟩, ⟨"assistant", "hi\nthere", []⟩] :=
  c4_merged_no_adjacent_same_party
    [⟨"user", "hello", []⟩, ⟨"user", "world", []⟩,
     ⟨"assistant", "hi", []⟩, ⟨"assistant", "there", []⟩]
    [⟨"user", "hello\nworld", []⟩, ⟨"assistant", "hi\nthere", []⟩]
    (Or.inl (by decide))

/-- C7: the Message Merger is idempotent — on a list that is already
merged (every role mappable and no two adjacent messages mapping to the same
provider party) both mergers return the list unchanged. -/
theorem c7_merge_idempotent (msgs : List ChatCompletionMessage)
    (hmapped : ∀ m ∈ msgs, (geminiRolesByOpenAIRoles m.role).isSome)
    (hmerged : List.Chain' partyNe msgs) :
    mergeOpenaiMessages msgs = .ok msgs ∧ mergeOpenAIMessages msgs = .ok msgs := by
  have hspec : mergeSpec msgs = some msgs := by
    cases msgs with
    | nil => rfl
    | cons m rest =>
      have h0 := hmapped m (by simp)
      simp only [mergeSpec, h0, if_true]
      exact mergeRuleGo_id rest m h0 (fun x hx => hmapped x (by simp [hx])) hmerged
  constructor
  · exact Res.ok_of_toOption (by rw [mergeOpenaiMessages_toOption]; exact hspec)
  · exact Res.ok_of_toOption (by rw [mergeOpenAIMessages_toOption]; exact hspec)

/-- C7 witness: an already-merged two-message list is returned
unchanged. -/
theorem c7_merge_idempotent_witness :
    mergeOpenaiMessages [⟨"user", "a", []⟩, ⟨"assistant", "b", []⟩] =
      .ok [⟨"user", "a", []⟩, ⟨"assistant", "b", []⟩] ∧
    mergeOpenAIMessages [⟨"user", "a", []⟩, ⟨"assistant", "b", []⟩] =
      .ok [⟨"user", "a", []⟩, ⟨"assistant", "b", []⟩] :=
  c7_merge_idempotent [⟨"user", "a", []⟩, ⟨"assistant", "b", []⟩] (by decide)
    (List.chain'_pair.mpr (by decide))


/-- C2 (amended): for every request, candidate count is forced to 1
regardless of the requested count, stop sequences are always passed through
(including an empty list), temperature is always set (explicitly 0 when the
wire value is 0), and topP and maxOutputTokens are unset exactly when the
wire value (for max_tokens, after Go's int32 truncation) is zero. -/
theorem c2_param_mapping_amended (req : ChatCompletionRequest) (mm : Bool) :
    (loadOrStoreModel req mm).candidateCount = some 1 ∧
    (loadOrStoreModel req mm).stopSequences = req.stop ∧
    (loadOrStoreModel req mm).temperature = some req.temperature ∧
    ((loadOrStoreModel req mm).topP =
      if req.topP = 0 then none else some req.topP) ∧
    ((loadOrStoreModel req mm).maxOutputTokens =
      if int32cast req.maxTokens = 0 then none
      else some (int32cast req.maxTokens)) := by
  unfold loadOrStoreModel
  by_cases ht : req.topP = 0 <;> by_cases hm : int32cast req.maxTokens = 0 <;>
    simp [ht, hm]

/-- C2 counterexample: a request with temperature=0, top_p=0, max_tokens=0
does NOT leave all three fields unset: topP and maxOutputTokens become unset,
but temperature is explicitly set to 0 (the code's "do not set if 0" fixups
cover only topP and maxOutputTokens), refuting the claim as stated. -/
theorem c2_zero_params_counterexample :
    ((loadOrStoreModel ⟨"m", [], 0, 0, 0, 3, [], false⟩ false).temperature =
       some 0 ∧
     (loadOrStoreModel ⟨"m", [], 0, 0, 0, 3, [], false⟩ false).temperature ≠
       none) ∧
    (loadOrStoreModel ⟨"m", [], 0, 0, 0, 3, [], false⟩ false).topP = none ∧
    (loadOrStoreModel ⟨"m", [], 0, 0, 0, 3, [], false⟩ false).maxOutputTokens =
      none := by
  decide

/-- C3: for every non-empty turn sequence whose last turn is user-party
(the caller's hard precondition), the Turn-Order Fixup returns the identical
sequence when the first turn is already user-party, and otherwise prepends
exactly one synthetic user turn whose only content is the fixed priming text,
leaving all other turns untouched. -/
theorem c3_turn_order_fixup (contents : List Content) (last first : Content)
    (hlast : contents.getLast? = some last)
    (hfirst : contents.head? = some first)
    (huser : last.role = genaiRoleUser) :
    reorderContentByRole contents =
      .ok (if first.role = genaiRoleUser then contents
           else { role := genaiRoleUser,
                  parts := [.text systemPrompt] } :: contents) := by
  simp only [reorderContentByRole, hlast, hfirst, huser, ne_eq,
    not_true_eq_false, if_false]
  by_cases hf : first.role = genaiRoleUser <;> simp [hf]

/-- C3 witness: the fixup applied to a concrete model-first, user-last
sequence. -/
theorem c3_turn_order_fixup_witness :
    reorderContentByRole [⟨"model", [.text "x"]⟩, ⟨"user", [.text "y"]⟩] =
      .ok (if (⟨"model", [.text "x"]⟩ : Content).role = genaiRoleUser then
             [⟨"model", [.text "x"]⟩, ⟨"user", [.text "y"]⟩]
           else { role := genaiRoleUser, parts := [.text systemPrompt] } ::
             [⟨"model", [.text "x"]⟩, ⟨"user", [.text "y"]⟩]) :=
  c3_turn_order_fixup _ _ _ rfl rfl rfl

/-- C10: a request with an empty messages list is not rejected with an
error by the translation pipeline behind the public ChatCompletion entry
point: it reaches a panic (reorderContentByRole indexes the last element of
the empty content list; pop would likewise panic on an empty slice). -/
theorem c10_empty_messages_panic :
    chatCompletionPrep [] = .abort "index out of range" ∧
    (∀ e, chatCompletionPrep [] ≠ .err e) ∧
    pop ([] : List Content) = .abort "pop from empty slice" := by
  refine ⟨rfl, ?_, rfl⟩
  intro e h
  rw [show chatCompletionPrep [] = .abort "index out of range" from rfl] at h
  exact Res.noConfusion h


theorem genaiToOpenaiChoice_ok {c : Candidate} {ch : ChatCompletionChoice}
    (h : genaiToOpenaiChoice c = .ok ch) :
    ch.finishReason = finishReasons c.finishReason ∧
    finishReasons c.finishReason ≠ "" ∧
    ch.role = IF (c.content.role == genaiRoleModel) "assistant" "user" := by
  cases hm : mergeText c.content.parts with
  | ok content =>
    by_cases hfr : finishReasons c.finishReason = ""
    · simp [genaiToOpenaiChoice, hm, hfr] at h
    · simp only [genaiToOpenaiChoice, hm, if_neg hfr, Res.ok.injEq] at h
      subst h
      exact ⟨rfl, hfr, rfl⟩
  | err m => simp [genaiToOpenaiChoice, hm] at h
  | abort m => simp [genaiToOpenaiChoice, hm] at h

theorem genaiToOpenaiChoices_get :
    ∀ (cands : List Candidate) (chs : List ChatCompletionChoice) (tok : Int),
      genaiToOpenaiChoices cands = .ok (chs, tok) →
      (∀ ch ∈ chs, ch.finishReason ≠ "") ∧
      (∀ i ch c, chs.get? i = some ch → cands.get? i = some c →
        ch.role = IF (c.content.role == genaiRoleModel) "assistant" "user") := by
  intro cands
  induction cands with
  | nil =>
    intro chs tok h
    simp only [genaiToOpenaiChoices, Res.ok.injEq, Prod.mk.injEq] at h
    obtain ⟨rfl, -⟩ := h
    exact ⟨by simp, by simp⟩
  | cons cd rest ih =>
    intro chs tok h
    cases hcd : genaiToOpenaiChoice cd with
    | ok ch0 =>
      cases hrest : genaiToOpenaiChoices rest with
      | ok p =>
        obtain ⟨chs', tok'⟩ := p
        simp only [genaiToOpenaiChoices, hcd, hrest, Res.ok.injEq,
          Prod.mk.injEq] at h
        obtain ⟨rfl, rfl⟩ := h
        obtain ⟨hok1, hok2, hok3⟩ := genaiToOpenaiChoice_ok hcd
        obtain ⟨ihfr, ihrole⟩ := ih chs' tok' hrest
        constructor
        · intro ch hch
          rcases List.mem_cons.mp hch with rfl | hmem
          · rw [hok1]; exact hok2
          · exact ihfr ch hmem
        · intro i ch c hch hc
          cases i with
          | zero =>
            rw [List.get?_cons_zero] at hch hc
            obtain rfl := Option.some.inj hch
            obtain rfl := Option.some.inj hc
            exact hok3
          | succ k =>
            rw [List.get?_cons_succ] at hch hc
            exact ihrole k ch c hch hc
      | err m => simp [genaiToOpenaiChoices, hcd, hrest] at h
      | abort m => simp [genaiToOpenaiChoices, hcd, hrest] at h
    | err m => simp [genaiToOpenaiChoices, hcd] at h
    | abort m => simp [genaiToOpenaiChoices, hcd] at h


theorem genaiToOpenaiChoices_bad :
    ∀ (cands : List Candidate),
      (∃ c ∈ cands, finishReasons c.finishReason = "") →
      ∀ p, genaiToOpenaiChoices cands ≠ .ok p := by
  intro cands
  induction cands with
  | nil => intro hbad; simp at hbad
  | cons cd rest ih =>
    intro hbad p h
    cases hcd : genaiToOpenaiChoice cd with
    | ok ch0 =>
      cases hrest : genaiToOpenaiChoices rest with
      | ok pr =>
        obtain ⟨cb, hmem, hfrb⟩ := hbad
        rcases List.mem_cons.mp hmem with rfl | hmem'
        · exact (genaiToOpenaiChoice_ok hcd).2.1 hfrb
        · exact ih ⟨cb, hmem', hfrb⟩ pr hrest
      | err m => simp [genaiToOpenaiChoices, hcd, hrest] at h
      | abort m => simp [genaiToOpenaiChoices, hcd, hrest] at h
    | err m => simp [genaiToOpenaiChoices, hcd] at h
    | abort m => simp [genaiToOpenaiChoices, hcd] at h

/-- C5 (amended): the fixed lookup table maps unspecified/other to null,
stop to stop, max-tokens to length and safety/recitation to content-filter
(identically in both packages); every entry of the table maps to a non-empty
wire value and everything outside the table to the empty string; and the
main-package assembler (`genaiToOpenaiResponse`) never emits an empty finish
reason on success and returns an explicit error whenever a candidate's finish
reason is outside the table.  (The goai-package assembler does not check, see
the counterexample.) -/
theorem c5_finish_reason_amended :
    (finishReasons 0 = "null" ∧ finishReasons 1 = "stop" ∧
     finishReasons 2 = "length" ∧ finishReasons 3 = "content_filter" ∧
     finishReasons 4 = "content_filter" ∧ finishReasons 5 = "null" ∧
     (∀ fr, toOpenaiFinishReason fr = finishReasons fr)) ∧
    (∀ fr ∈ ([0, 1, 2, 3, 4, 5] : List Int), finishReasons fr ≠ "") ∧
    (∀ fr : Int, fr ∉ ([0, 1, 2, 3, 4, 5] : List Int) → finishReasons fr = "") ∧
    (∀ cands r, genaiToOpenaiResponse cands = .ok r →
      ∀ ch ∈ r.choices, ch.finishReason ≠ "") ∧
    (∀ cands, (∃ c ∈ cands, finishReasons c.finishReason = "") →
      ∀ r, genaiToOpenaiResponse cands ≠ .ok r) := by
  refine ⟨⟨rfl, rfl, rfl, rfl, rfl, rfl, fun _ => rfl⟩, by decide, ?_, ?_, ?_⟩
  · intro fr hfr
    simp only [List.mem_cons, List.not_mem_nil, or_false, not_or] at hfr
    obtain ⟨h0, h1, h2, h3, h4, h5⟩ := hfr
    simp [finishReasons, h0, h1, h2, h3, h4, h5]
  · intro cands r h ch hch
    cases hcs : genaiToOpenaiChoices cands with
    | ok p =>
      obtain ⟨chs, tok⟩ := p
      simp only [genaiToOpenaiResponse, hcs, Res.ok.injEq] at h
      subst h
      exact (genaiToOpenaiChoices_get cands chs tok hcs).1 ch hch
    | err m => simp [genaiToOpenaiResponse, hcs] at h
    | abort m => simp [genaiToOpenaiResponse, hcs] at h
  · intro cands hbad r h
    cases hcs : genaiToOpenaiChoices cands with
    | ok p => exact genaiToOpenaiChoices_bad cands hbad p hcs
    | err m => simp [genaiToOpenaiResponse, hcs] at h
    | abort m => simp [genaiToOpenaiResponse, hcs] at h

/-- C5 counterexample: the goai-package Response Assembler
(`toOpenaiChoice`, openai.go) maps a finish reason outside the table (here 7)
to a silently empty string instead of returning an explicit error, refuting
the claim as stated for that assembler. -/
theorem c5_finish_reason_counterexample :
    toOpenaiChoice ⟨0, ⟨"model", [.text "hi"]⟩, 7, 1⟩ =
      .ok ⟨0, "assistant", "hi", ""⟩ ∧
    toOpenaiFinishReason 7 = "" := by
  decide

/-- C5 witness: finish reason 7 is outside the table and the main-package
assembler rejects a concrete candidate carrying it. -/
theorem c5_finish_reason_amended_witness :
    finishReasons 7 = "" ∧
    genaiToOpenaiResponse [⟨0, ⟨"model", [.text "hi"]⟩, 7, 1⟩] ≠
      .ok ⟨[⟨0, "assistant", "hi", ""⟩], 1⟩ :=
  ⟨c5_finish_reason_amended.2.2.1 7 (by decide),
   c5_finish_reason_amended.2.2.2.2 [⟨0, ⟨"model", [.text "hi"]⟩, 7, 1⟩]
     ⟨⟨0, ⟨"model", [.text "hi"]⟩, 7, 1⟩, by simp, by decide⟩
     ⟨[⟨0, "assistant", "hi", ""⟩], 1⟩⟩

/-- C6 (amended): the main-package Response Assembler maps each candidate's
party to the wire role with model becoming assistant and any other party
becoming user; the goai-package table `toOpenaiRole` instead maps user to
system, model to assistant, and any other party to the empty string. -/
theorem c6_role_mapping_amended :
    (∀ cands res i c ch,
      genaiToOpenaiResponse cands = .ok res →
      res.choices.get? i = some ch → cands.get? i = some c →
      ch.role = IF (c.content.role == genaiRoleModel) "assistant" "user") ∧
    toOpenaiRole genaiRoleModel = "assistant" ∧
    toOpenaiRole genaiRoleUser = "system" ∧
    (∀ r, r ≠ genaiRoleUser → r ≠ genaiRoleModel → toOpenaiRole r = "") := by
  refine ⟨?_, rfl, rfl, ?_⟩
  · intro cands res i c ch h hch hc
    cases hcs : genaiToOpenaiChoices cands with
    | ok p =>
      obtain ⟨chs, tok⟩ := p
      simp only [genaiToOpenaiResponse, hcs, Res.ok.injEq] at h
      subst h
      exact (genaiToOpenaiChoices_get cands chs tok hcs).2 i ch c hch hc
    | err m => simp [genaiToOpenaiResponse, hcs] at h
    | abort m => simp [genaiToOpenaiResponse, hcs] at h
  · intro r h1 h2
    simp [toOpenaiRole, h1, h2]

/-- C6 counterexample: the goai-package assembler (`toOpenaiChoice`,
openai.go) maps a candidate whose party is user to the wire role "system",
not "user", refuting the claim as stated for that assembler. -/
theorem c6_role_mapping_counterexample :
    toOpenaiChoice ⟨0, ⟨"user", [.text "hi"]⟩, 1, 1⟩ =
      .ok ⟨0, "system", "hi", "stop"⟩ ∧ ("system" : String) ≠ "user" := by
  decide

/-- C6 witness: a concrete model-party candidate assembled by the
main-package assembler gets role assistant. -/
theorem c6_role_mapping_amended_witness :
    (⟨0, "assistant", "4", "stop"⟩ : ChatCompletionChoice).role =
      IF ((⟨"model", [.text "4"]⟩ : Content).role == genaiRoleModel)
        "assistant" "user" :=
  c6_role_mapping_amended.1 [⟨0, ⟨"model", [.text "4"]⟩, 1, 3⟩]
    ⟨[⟨0, "assistant", "4", "stop"⟩], 3⟩ 0 ⟨0, ⟨"model", [.text "4"]⟩, 1, 3⟩
    ⟨0, "assistant", "4", "stop"⟩ (by decide) rfl rfl


theorem streamProducer_all_ok (t : IterTerminal) :
    ∀ incs : List (List Candidate),
      (∀ cs ∈ incs, ∃ out, toOpenaiStreamChoices cs = .ok out) →
      (chatCompletionStreamProducer incs t).chunks.length = incs.length ∧
      (chatCompletionStreamProducer incs t).closed =
        (chatCompletionStreamProducer [] t).closed ∧
      (chatCompletionStreamProducer incs t).panicked =
        (chatCompletionStreamProducer [] t).panicked := by
  intro incs
  induction incs with
  | nil => intro _; cases t <;> exact ⟨rfl, rfl, rfl⟩
  | cons cs rest ih =>
    intro h
    obtain ⟨out, hout⟩ := h cs (by simp)
    obtain ⟨ih1, ih2, ih3⟩ := ih (fun x hx => h x (by simp [hx]))
    cases t <;>
      simp_all [chatCompletionStreamProducer, hout]

/-- C8: for a provider stream of K increments followed by normal
exhaustion, the Streaming Reassembler emits exactly K chunks in provider
order and then closes the channel, with no chunk after closure and no panic;
but when the iterator ends in an error instead, the producer panics (it
dereferences the nil response, having tested only for iterator.Done) and the
channel is never closed, though the already-delivered chunks stand — the
claim's "still closes the channel on error" is exactly what the code fails
to do (code bug). -/
theorem c8_stream_termination_and_error :
    (∀ incs : List (List Candidate),
      (∀ cs ∈ incs, ∃ out, toOpenaiStreamChoices cs = .ok out) →
      (chatCompletionStreamProducer incs .done).chunks.length = incs.length ∧
      (chatCompletionStreamProducer incs .done).closed = true ∧
      (chatCompletionStreamProducer incs .done).panicked = false) ∧
    (∀ (incs : List (List Candidate)) (msg : String),
      (∀ cs ∈ incs, ∃ out, toOpenaiStreamChoices cs = .ok out) →
      (chatCompletionStreamProducer incs (.failure msg)).chunks.length =
        incs.length ∧
      (chatCompletionStreamProducer incs (.failure msg)).closed = false ∧
      (chatCompletionStreamProducer incs (.failure msg)).panicked = true) := by
  constructor
  · intro incs h
    exact streamProducer_all_ok .done incs h
  · intro incs msg h
    exact streamProducer_all_ok (.failure msg) incs h

/-- C8 witness: a one-increment stream yields one chunk then closure; an
erroring stream leaves the channel unclosed after a panic. -/
theorem c8_stream_termination_and_error_witness :
    ((chatCompletionStreamProducer [[⟨0, ⟨"model", [.text "a"]⟩, 1, 1⟩]]
        .done).chunks.length = 1 ∧
     (chatCompletionStreamProducer [[⟨0, ⟨"model", [.text "a"]⟩, 1, 1⟩]]
        .done).closed = true ∧
     (chatCompletionStreamProducer [[⟨0, ⟨"model", [.text "a"]⟩, 1, 1⟩]]
        .done).panicked = false) ∧
    (chatCompletionStreamProducer [] (.failure "quota")).closed = false ∧
    (chatCompletionStreamProducer [] (.failure "quota")).panicked = true :=
  ⟨c8_stream_termination_and_error.1 [[⟨0, ⟨"model", [.text "a"]⟩, 1, 1⟩]]
     (by
       intro cs hcs
       simp only [List.mem_singleton] at hcs
       subst hcs
       exact ⟨[⟨0, "assistant", "a", "stop"⟩], by decide⟩),
   (c8_stream_termination_and_error.2 [] "quota" (by simp)).2⟩


theorem cacheStep_mono {n : Nat} (s : CacheState n) (i c : Fin n)
    (h : s.cache = some c) : (cacheStep s i).cache = some c := by
  unfold cacheStep
  split_ifs <;> simp [h]

theorem cacheStep_inv {n : Nat} {s : CacheState n} (hs : CacheInv s) (i : Fin n) :
    CacheInv (cacheStep s i) := by
  obtain ⟨h1, h2⟩ := hs
  unfold cacheStep
  split_ifs with hp0 hp1
  · cases hc : s.cache with
    | some c =>
      dsimp only [CacheInv]
      refine ⟨?_, ?_⟩
      · intro j v hjv
        by_cases hji : j = i
        · subst hji
          rw [Function.update_same] at hjv
          exact hjv
        · rw [Function.update_noteq hji] at hjv
          have := h1 j v hjv
          rw [hc] at this
          exact this
      · intro j hj
        by_cases hji : j = i
        · subst hji; rw [Function.update_same]; rfl
        · rw [Function.update_noteq hji] at hj
          rw [Function.update_noteq hji]
          exact h2 j hj
    | none =>
      dsimp only [CacheInv]
      refine ⟨?_, ?_⟩
      · intro j v hjv
        have := h1 j v hjv
        rw [hc] at this
        exact this
      · intro j hj
        by_cases hji : j = i
        · subst hji
          rw [Function.update_same] at hj
          exact absurd hj (by decide)
        · rw [Function.update_noteq hji] at hj
          exact h2 j hj
  · cases hc : s.cache with
    | some c =>
      dsimp only [CacheInv]
      refine ⟨?_, ?_⟩
      · intro j v hjv
        by_cases hji : j = i
        · subst hji
          rw [Function.update_same] at hjv
          exact hjv
        · rw [Function.update_noteq hji] at hjv
          have := h1 j v hjv
          rw [hc] at this
          exact this
      · intro j hj
        by_cases hji : j = i
        · subst hji; rw [Function.update_same]; rfl
        · rw [Function.update_noteq hji] at hj
          rw [Function.update_noteq hji]
          exact h2 j hj
    | none =>
      dsimp only [CacheInv]
      refine ⟨?_, ?_⟩
      · intro j v hjv
        by_cases hji : j = i
        · subst hji
          rw [Function.update_same] at hjv
          exact hjv
        · rw [Function.update_noteq hji] at hjv
          have := h1 j v hjv
          rw [hc] at this
          exact Option.noConfusion this
      · intro j hj
        by_cases hji : j = i
        · subst hji; rw [Function.update_same]; rfl
        · rw [Function.update_noteq hji] at hj
          rw [Function.update_noteq hji]
          exact h2 j hj
  · exact ⟨h1, h2⟩

theorem cacheRun_mono {n : Nat} (sched : List (Fin n)) :
    ∀ (s : CacheState n) (c : Fin n), s.cache = some c →
      (cacheRun s sched).cache = some c := by
  induction sched with
  | nil => intro s c h; exact h
  | cons i rest ih => intro s c h; exact ih _ c (cacheStep_mono s i c h)

theorem cacheRun_inv {n : Nat} (sched : List (Fin n)) :
    ∀ s : CacheState n, CacheInv s → CacheInv (cacheRun s sched) := by
  induction sched with
  | nil => intro s hs; exact hs
  | cons i rest ih => intro s hs; exact ih _ (cacheStep_inv hs i)

/-- C9: for any number of concurrent `createClient` callers with the same
credential against an empty cache, under every interleaving in which all
callers finish, exactly one constructed client is cached, every caller's
returned handle is that same instance, and the cached client never changes
afterwards (no duplicate live clients per credential in the cache, whose
sync.Map slot holds at most one value by construction). -/
theorem c9_cache_single_instance (n : Nat) (sched : List (Fin n)) (hn : 0 < n)
    (hdone : ∀ i, (cacheRun (initCacheState n) sched).phase i = 2) :
    ∃ w, (cacheRun (initCacheState n) sched).cache = some w ∧
      (∀ i, (cacheRun (initCacheState n) sched).result i = some w) ∧
      (∀ extra, (cacheRun (cacheRun (initCacheState n) sched) extra).cache =
        some w) := by
  have hinit : CacheInv (initCacheState n) := by
    constructor
    · intro i v h; exact absurd h (by simp [initCacheState])
    · intro i h; exact absurd h (by simp [initCacheState])
  obtain ⟨h1, h2⟩ := cacheRun_inv sched (initCacheState n) hinit
  obtain ⟨w, hw⟩ :=
    Option.isSome_iff_exists.mp (h2 ⟨0, hn⟩ (hdone ⟨0, hn⟩))
  have hcw := h1 ⟨0, hn⟩ w hw
  refine ⟨w, hcw, ?_, ?_⟩
  · intro i
    obtain ⟨v, hv⟩ := Option.isSome_iff_exists.mp (h2 i (hdone i))
    have hcv := h1 i v hv
    rw [hcw] at hcv
    rw [hv, Option.some.inj hcv]
  · intro extra
    exact cacheRun_mono extra _ w hcw

/-- C9 witness: two callers racing under a fully interleaved schedule both
finish with the one surviving client. -/
theorem c9_cache_single_instance_witness :
    ∃ w, (cacheRun (initCacheState 2) [0, 1, 0, 1]).cache = some w ∧
      (∀ i, (cacheRun (initCacheState 2) [0, 1, 0, 1]).result i = some w) ∧
      (∀ extra,
        (cacheRun (cacheRun (initCacheState 2) [0, 1, 0, 1]) extra).cache =
          some w) :=
  c9_cache_single_instance 2 [0, 1, 0, 1] (by decide) (by intro i; fin_cases i <;> rfl)

end GeminiProxy
